import Mathlib

/-!
Verification development for the Covid_project ETL core.

The embedding models the two components the specification covers:

* `data_merging.py` — the country-name reconciler (`corrections`,
  `data_standarization`) and the inner merge (`merging_datasets`);
* `calculate_per_capita.py` — date conversion, per-row rate computation,
  per-country latest-date reduction, and the final descending sort.

Tables are modelled as lists of records; a DataFrame column is a record
field.  All records are modelled with the `Country` column present, so the
column-alias renaming branch of `data_standarization` (lines 111-124) is a
no-op for every table in scope.  pandas numeric columns are modelled with
`Int` (the CSV columns are integers) and the computed rate with `ℚ`; the
floating-point division of the source is modelled by exact rational
division, which is the idealised value the specification's 1e-9 tolerance
refers to.
-/

namespace Covid

/-- The module-level correction dictionary of `data_merging.py` (lines
27-38), in source order. -/
def corrections : List (String × String) :=
  [ ("US", "United States")
  , ("Korea, South", "South Korea")
  , ("Burma", "Myanmar")
  , ("Czechia", "Czech Republic")
  , ("Taiwan*", "Taiwan")
  , ("Cote d'Ivoire", "Ivory Coast")
  , ("Congo (Brazzaville)", "Republic of the Congo")
  , ("Congo (Kinshasa)", "DR Congo")
  , ("West Bank and Gaza", "Palestine")
  , ("Cape Verde", "Cabo Verde") ]

/-- Models `series.map(corrections).fillna(series)` (lines 126-127): exact-key
dictionary lookup, and names not present in the dictionary pass through
unchanged. -/
def applyCorrection (s : String) : String :=
  (corrections.lookup s).getD s

/-- A row of the population table: the `Country` and `2022 Population`
columns (the merge projects the table to exactly these two columns). -/
structure PopRow where
  country : String
  population : Int
deriving DecidableEq, Repr

/-- A row of the COVID case table: `Country`, `Date` (a raw string at this
stage), `Confirmed`. -/
structure CaseRow where
  country : String
  date : String
  confirmed : Int
deriving DecidableEq, Repr

/-- A row of the merged table produced by `merging_datasets`. -/
structure MergedRow where
  country : String
  date : String
  confirmed : Int
  population : Int
deriving DecidableEq, Repr

/-- Model of `data_standarization` (lines 126-127): applies the `corrections`
mapping with identity fallback to the `Country` column of both tables and
returns the pair.  pandas note: `df['Country'] = ...` assigns the column in
place, so the two returned tables are the caller's argument objects after
mutation (see `data_standarization_post`). -/
def data_standarization (population_df : List PopRow) (covid_df : List CaseRow) :
    List PopRow × List CaseRow :=
  ( population_df.map fun r => { r with country := applyCorrection r.country }
  , covid_df.map fun r => { r with country := applyCorrection r.country } )

/-- The caller-visible state of the two argument tables after
`data_standarization` returns.  The column assignments on lines 126-127
mutate the argument DataFrames in place (pandas `df[col] = series` writes
into the object), so the post-call state of the caller's tables is exactly
the pair the function returns. -/
def data_standarization_post (population_df : List PopRow) (covid_df : List CaseRow) :
    List PopRow × List CaseRow :=
  data_standarization population_df covid_df

/-- Model of `merging_datasets` (lines 158-162): optional standardization, then
`pd.merge(covid_df, population_df[['Country', '2022 Population']],
on='Country', how='inner')`.  pandas inner merge pairs every left (covid)
row with every right (population) row that shares its key, preserving the
order of the left keys and, within one left row, the right table's order;
duplicate keys on the right therefore fan out.  The CSV write is omitted. -/
def merging_datasets (population_df : List PopRow) (covid_df : List CaseRow)
    (estandarized : Bool := false) : List MergedRow :=
  let std := if estandarized then (population_df, covid_df)
             else data_standarization population_df covid_df
  std.2.flatMap fun c =>
    (std.1.filter fun p => p.country == c.country).map fun p =>
      { country := c.country, date := c.date, confirmed := c.confirmed
      , population := p.population }

/-! ### Date parsing (`pd.to_datetime(..., format='%Y-%m-%d')`, line 72)

`to_datetime` with an explicit format either converts every value of the
column or raises on the first value that does not match the format; there
is no partial conversion.  A parsed date is encoded as the natural number
`y * 10000 + m * 100 + d`, which orders exactly like the calendar date. -/

/-- Reads a nonempty all-digit character list as a natural number. -/
def digitsToNat? (l : List Char) : Option Nat :=
  if l ≠ [] ∧ l.all (fun c => c.isDigit) then
    some (l.foldl (fun a c => a * 10 + (c.toNat - 48)) 0)
  else none

/-- Gregorian leap-year test. -/
def isLeap (y : Nat) : Bool :=
  (y % 4 == 0 && y % 100 != 0) || y % 400 == 0

/-- Number of days in month `m` of year `y`. -/
def daysInMonth (y m : Nat) : Nat :=
  if m = 2 then (if isLeap y then 29 else 28)
  else if m = 4 ∨ m = 6 ∨ m = 9 ∨ m = 11 then 30
  else 31

/-- Model of `pd.to_datetime(s, format='%Y-%m-%d')` on one value: a
four-digit year, dashes, one- or two-digit month and day, and calendar
validity; `none` models the raised `ValueError`. -/
def parseDate (s : String) : Option Nat :=
  match s.toList.splitOn '-' with
  | [ys, ms, ds] => do
      let y ← digitsToNat? ys
      let m ← digitsToNat? ms
      let d ← digitsToNat? ds
      if ys.length = 4 ∧ ms.length ≤ 2 ∧ ds.length ≤ 2 ∧
         1 ≤ m ∧ m ≤ 12 ∧ 1 ≤ d ∧ d ≤ daysInMonth y m then
        some (y * 10000 + m * 100 + d)
      else none
  | _ => none

/-- A merged row after the `Date` column has been converted (line 72). -/
structure DatedRow where
  country : String
  date : Nat
  confirmed : Int
  population : Int
deriving DecidableEq, Repr

/-- A row after the `Cases_per_100k` column has been added (line 78). -/
structure RateRow where
  country : String
  date : Nat
  confirmed : Int
  population : Int
  cases_per_100k : ℚ
deriving DecidableEq, Repr

/-- Round to the nearest integer, ties to even: the rounding mode of
numpy/pandas `.round`.  Computed on the reduced fraction `q.num / q.den`
with integer arithmetic (`q.num.fdiv q.den` is `⌊q⌋`, and the fractional
part `r / den` compares with `1/2` as `2 * r` with `den`); the
floor-based reading is `roundHalfEven_spec` below. -/
def roundHalfEven (q : ℚ) : ℤ :=
  let f := q.num.fdiv q.den
  let r := q.num - f * q.den
  if 2 * r < q.den then f
  else if (q.den : ℤ) < 2 * r then f + 1
  else if f % 2 = 0 then f else f + 1

/-- Model of `.round(2)`: round to 2 decimal places, ties to even
(`q * 100` is formed as the fraction `q.num * 100 / q.den`). -/
def round2 (q : ℚ) : ℚ :=
  Rat.divInt (roundHalfEven (Rat.divInt (q.num * 100) q.den)) 100

/-- Line 72, over the whole column: converts every `Date` value, or fails
the whole run on the first unparseable value (the `ValueError` raised by
`pd.to_datetime`; no partially converted table is ever produced). -/
def convert_dates : List MergedRow → Except String (List DatedRow)
  | [] => .ok []
  | r :: rs =>
      match parseDate r.date with
      | none => .error ("time data " ++ r.date ++ " does not match format %Y-%m-%d")
      | some d =>
          (convert_dates rs).map fun l =>
            { country := r.country, date := d, confirmed := r.confirmed
            , population := r.population } :: l

/-- Line 78: `Cases_per_100k = ((Confirmed / 2022 Population) * 100000).round(2)`,
computed for every row of the (not yet reduced) table. -/
def add_rate (r : DatedRow) : RateRow :=
  { country := r.country, date := r.date, confirmed := r.confirmed
  , population := r.population
  , cases_per_100k := round2 (Rat.divInt (r.confirmed * 100000) r.population) }

/-- Lexicographic order on code points: Python / pandas string order. -/
def charListLe : List Char → List Char → Bool
  | [], _ => true
  | _ :: _, [] => false
  | a :: as, b :: bs =>
      if a.toNat < b.toNat then true
      else if b.toNat < a.toNat then false
      else charListLe as bs

/-- String order used for pandas' sorted group keys. -/
def strLe (a b : String) : Bool := charListLe a.data b.data

/-- The `groupby('Country')` group keys: pandas groups with `sort=True`, so the
distinct country names in ascending lexicographic order. -/
def groupKeys (l : List RateRow) : List String :=
  ((l.map fun r => r.country).dedup).insertionSort (fun a b => strLe a b = true)

/-- One step of the `idxmax` scan: keep the current best row, replace it
only on a strictly later date (so the first row attaining the maximum is
retained, matching `idxmax`'s first-occurrence tie-break). -/
def dateStep (acc : Option RateRow) (r : RateRow) : Option RateRow :=
  match acc with
  | none => some r
  | some b => if b.date < r.date then some r else some b

/-- Model of `idxmax` on the `Date` column of one group followed by `.loc`: the
first row (in original order) attaining the maximum date. -/
def idxmaxDate (l : List RateRow) : Option RateRow :=
  l.foldl dateStep none

/-- Lines 84-86: `covid_19_df.loc[covid_19_df.groupby('Country')['Date'].idxmax()]`
— for each country (in pandas' sorted group order) the first row with that
country's maximum date. -/
def reduce_latest (l : List RateRow) : List RateRow :=
  (groupKeys l).filterMap fun c => idxmaxDate (l.filter fun r => r.country == c)

/-- Line 90: `sort_values(by='Cases_per_100k', ascending=False)`.  pandas
computes an ascending argsort of the column with the default
`kind='quicksort'` and then reverses the indexer (`nargsort`:
`indexer = indexer[::-1]`).  The model uses the reversal of a stable
ascending sort.  numpy's unstable introsort fixes no particular order of
equal keys on large frames, so of this model only the tie-order-independent
facts — the result is a permutation of the input, sorted descending — are
program guarantees and only those are used by the general theorems; the
model's tie order itself is exact on frames below numpy's insertion-sort
cutoff (≈16 rows) and is relied on only for the concrete two-row run
`cex4`, where the tied pair provably comes out reversed. -/
def sort_desc (l : List RateRow) : List RateRow :=
  (l.insertionSort fun a b => a.cases_per_100k ≤ b.cases_per_100k).reverse

/-- Model of `calculate_per_capita` (lines 68-101): copy, date conversion (which
can fail the run), per-row rate, latest-date reduction, descending sort.
The CSV write and console prints are omitted; an `Except.error` models the
exception propagated to the caller. -/
def calculate_per_capita (merged_df : List MergedRow) : Except String (List RateRow) :=
  (convert_dates merged_df).map fun dated =>
    sort_desc (reduce_latest (dated.map add_rate))

instance {ε α : Type} [DecidableEq ε] [DecidableEq α] : DecidableEq (Except ε α) :=
  fun a b =>
    match a, b with
    | .error e, .error f =>
        if h : e = f then .isTrue (by rw [h]) else .isFalse (by intro hc; cases hc; exact h rfl)
    | .ok x, .ok y =>
        if h : x = y then .isTrue (by rw [h]) else .isFalse (by intro hc; cases hc; exact h rfl)
    | .error _, .ok _ => .isFalse (by intro hc; cases hc)
    | .ok _, .error _ => .isFalse (by intro hc; cases hc)

instance : IsTotal RateRow (fun a b => a.cases_per_100k ≤ b.cases_per_100k) :=
  ⟨fun a b => le_total a.cases_per_100k b.cases_per_100k⟩

instance : IsTrans RateRow (fun a b => a.cases_per_100k ≤ b.cases_per_100k) :=
  ⟨fun _ _ _ h h' => le_trans h h'⟩

/-- The value held by a pandas DataFrame object at the successive stages
of `calculate_per_capita`. -/
inductive PdVal where
  | raw : List MergedRow → PdVal
  | dated : List DatedRow → PdVal
  | rated : List RateRow → PdVal
deriving DecidableEq

/-- The two heap cells visible to `calculate_per_capita`: the object the
caller's `merged_df` is bound to, and the object allocated by
`merged_df.copy()` on line 69 (absent until the copy runs). -/
structure Heap where
  merged_obj : PdVal
  covid_obj : Option PdVal
deriving DecidableEq

/-- Runs `calculate_per_capita` as a state transformer over the two heap
cells.  Line 69 allocates a fresh copy; the column writes of lines 72 and
78 mutate that fresh object, and lines 84-86 and 90 rebind `covid_19_df`
to new frames.  No statement of the function body targets the caller's
object. -/
def calculate_per_capita_run (merged_df : List MergedRow) :
    Heap × Except String (List RateRow) :=
  let h0 : Heap := ⟨.raw merged_df, some (.raw merged_df)⟩
  match convert_dates merged_df with
  | .error e => (h0, .error e)
  | .ok dated =>
      let h1 : Heap := { h0 with covid_obj := some (.dated dated) }
      let rated := dated.map add_rate
      let h2 : Heap := { h1 with covid_obj := some (.rated rated) }
      let reduced := reduce_latest rated
      let h3 : Heap := { h2 with covid_obj := some (.rated reduced) }
      let final := sort_desc reduced
      let h4 : Heap := { h3 with covid_obj := some (.rated final) }
      (h4, .ok final)

/-- Population table for the merger counterexample: after reconciliation
maps `"Cape Verde"` to `"Cabo Verde"`, the canonical name `"Cabo Verde"`
occurs twice. -/
def cexPop : List PopRow := [⟨"Cape Verde", 500000⟩, ⟨"Cabo Verde", 600000⟩]

/-- Case table for the merger counterexample: one row for `"Cabo Verde"`. -/
def cexCovid : List CaseRow := [⟨"Cabo Verde", "2021-01-01", 10⟩]

/-- Two countries with identical rates, one merged row each. -/
def cex4 : List MergedRow :=
  [⟨"A", "2021-01-01", 1, 100000⟩, ⟨"B", "2021-01-01", 1, 100000⟩]

/-- The reduced row of country `"A"` in the `cex4` run. -/
def cexRowA : RateRow := ⟨"A", 20210101, 1, 100000, 1⟩

/-- The reduced row of country `"B"` in the `cex4` run. -/
def cexRowB : RateRow := ⟨"B", 20210101, 1, 100000, 1⟩

/-- The table `cex4` after date conversion. -/
def cexDated : List DatedRow :=
  [⟨"A", 20210101, 1, 100000⟩, ⟨"B", 20210101, 1, 100000⟩]

/-- A small merged table: two dates for country `"A"`, one for `"B"`. -/
def wMerged : List MergedRow :=
  [ ⟨"A", "2021-01-02", 4, 200000⟩
  , ⟨"A", "2021-01-01", 3, 200000⟩
  , ⟨"B", "2021-01-01", 8, 200000⟩ ]

/-- The table `wMerged` after date conversion. -/
def wDated : List DatedRow :=
  [ ⟨"A", 20210102, 4, 200000⟩
  , ⟨"A", 20210101, 3, 200000⟩
  , ⟨"B", 20210101, 8, 200000⟩ ]

/-- The output of `calculate_per_capita` on `wMerged`: one row per
country at its latest date, rates 2.00 and 4.00, sorted descending. -/
def wOut : List RateRow :=
  [ ⟨"B", 20210101, 8, 200000, 4⟩
  , ⟨"A", 20210102, 4, 200000, 2⟩ ]

/-! ### Helper lemmas about the reconciler -/

/-- No value of the correction dictionary is itself a key, so a corrected
name is never corrected again. -/
lemma corrections_values_fixed :
    ∀ v ∈ corrections.map Prod.snd, corrections.lookup v = none := by decide

/-- Pointwise idempotence of the correction-with-fallback map. -/
lemma applyCorrection_idem (s : String) :
    applyCorrection (applyCorrection s) = applyCorrection s := by
  cases h : corrections.lookup s with
  | none => simp [applyCorrection, h]
  | some v =>
      have hmem : (s, v) ∈ corrections := by
        rw [List.lookup_eq_some_iff] at h
        obtain ⟨l₁, l₂, hE, -⟩ := h
        rw [hE]; simp
      have hv : corrections.lookup v = none :=
        corrections_values_fixed v (List.mem_map_of_mem Prod.snd hmem)
      simp [applyCorrection, h, hv]

/-- Mapping the country updater over a population table is the identity
iff every country name in the table is a fixed point of the map. -/
lemma map_country_pop_eq_self (f : String → String) :
    ∀ l : List PopRow,
      (l.map fun r => { r with country := f r.country }) = l ↔
        ∀ r ∈ l, f r.country = r.country := by
  intro l
  induction l with
  | nil => simp
  | cons a l ih =>
      cases a with
      | mk c p => simp [ih, PopRow.mk.injEq, and_comm]

/-- Mapping the country updater over a case table is the identity iff
every country name in the table is a fixed point of the map. -/
lemma map_country_case_eq_self (f : String → String) :
    ∀ l : List CaseRow,
      (l.map fun r => { r with country := f r.country }) = l ↔
        ∀ r ∈ l, f r.country = r.country := by
  intro l
  induction l with
  | nil => simp
  | cons a l ih =>
      cases a with
      | mk c d cf => simp [ih, CaseRow.mk.injEq, and_comm]

/-- C5.  The Name Reconciler maps a name that is exactly a key of the
correction table to the table's value, maps every other name to itself
(identity fallback, no fuzzy or partial matching), and
`data_standarization` applies this same single mapping to the `Country`
column of both the population table and the case table. -/
theorem reconciler_exact_match_identity_fallback :
    (∀ p ∈ corrections, applyCorrection p.1 = p.2) ∧
    (∀ s : String, s ∉ corrections.map Prod.fst → applyCorrection s = s) ∧
    (∀ (population_df : List PopRow) (covid_df : List CaseRow),
      data_standarization population_df covid_df =
        ( population_df.map fun r => { r with country := applyCorrection r.country }
        , covid_df.map fun r => { r with country := applyCorrection r.country } )) := by
  refine ⟨by decide, ?_, fun _ _ => rfl⟩
  intro s hs
  have h : corrections.lookup s = none := by
    rw [List.lookup_eq_none_iff]
    intro p hp
    have hne : p.1 ≠ s := fun hEq => hs (hEq ▸ List.mem_map_of_mem Prod.fst hp)
    simpa [bne_iff_ne] using hne.symm
  simp [applyCorrection, h]

/-- Witness for C5: a key of the table is corrected, a name absent from
the keys passes through unchanged. -/
theorem reconciler_exact_match_identity_fallback_witness :
    applyCorrection "US" = "United States" ∧ applyCorrection "France" = "France" :=
  ⟨reconciler_exact_match_identity_fallback.1 ("US", "United States") (by decide),
   reconciler_exact_match_identity_fallback.2.1 "France" (by decide)⟩

/-- C6.  Canonicalization is idempotent: over any sequence of raw country
names, and over any pair of tables, applying the Name Reconciler twice
yields the same result as applying it once. -/
theorem reconciler_idempotent :
    (∀ names : List String,
      (names.map applyCorrection).map applyCorrection = names.map applyCorrection) ∧
    (∀ (population_df : List PopRow) (covid_df : List CaseRow),
      data_standarization (data_standarization population_df covid_df).1
          (data_standarization population_df covid_df).2 =
        data_standarization population_df covid_df) := by
  constructor
  · intro names
    rw [List.map_map]
    exact List.map_congr_left fun s _ => applyCorrection_idem s
  · intro population_df covid_df
    simp only [data_standarization, List.map_map, Prod.mk.injEq]
    constructor <;>
      exact List.map_congr_left fun r _ => by
        simp [Function.comp, applyCorrection_idem]

/-- Counterexample to C8: `data_standarization` is not side-effect free.
The column assignments of lines 126-127 write into the caller's
DataFrames, so after the call the caller's population table no longer
holds the original name `"US"`. -/
theorem data_standarization_not_pure :
    data_standarization_post [⟨"US", 331000000⟩] [] ≠ ([⟨"US", 331000000⟩], []) := by
  decide

/-- C8 as amended.  `data_standarization` mutates the provided tables in
place: after it returns, the caller's tables hold the corrected country
names (the returned pair is the caller's pair of objects), and the
caller's tables are unchanged precisely when every country name in them is
a fixed point of the correction mapping. -/
theorem data_standarization_mutates_in_place
    (population_df : List PopRow) (covid_df : List CaseRow) :
    (data_standarization_post population_df covid_df =
      ( population_df.map fun r => { r with country := applyCorrection r.country }
      , covid_df.map fun r => { r with country := applyCorrection r.country } )) ∧
    (data_standarization_post population_df covid_df = (population_df, covid_df) ↔
      (∀ r ∈ population_df, applyCorrection r.country = r.country) ∧
      (∀ r ∈ covid_df, applyCorrection r.country = r.country)) := by
  refine ⟨rfl, ?_⟩
  rw [show data_standarization_post population_df covid_df =
      ( population_df.map fun r => { r with country := applyCorrection r.country }
      , covid_df.map fun r => { r with country := applyCorrection r.country } ) from rfl]
  rw [Prod.mk.injEq, map_country_pop_eq_self, map_country_case_eq_self]

/-- Witness for the amended C8: a table whose names are all fixed points
is left unchanged, via the right-to-left direction of the equivalence. -/
theorem data_standarization_mutates_in_place_witness :
    data_standarization_post [⟨"France", 5⟩] [] = ([⟨"France", 5⟩], []) :=
  (data_standarization_mutates_in_place [⟨"France", 5⟩] []).2.mpr
    ⟨by decide, by decide⟩

/-! ### The merger (C7) -/



/-- Counterexample to C7: the merger performs no deduplication of the
population side.  The single case row for `"Cabo Verde"` — whose canonical
name does appear in the standardized population table — yields two merged
rows, one per duplicate population row. -/
theorem merger_fans_out :
    "Cabo Verde" ∈ (data_standarization cexPop cexCovid).1.map PopRow.country ∧
    ((merging_datasets cexPop cexCovid).filter
        fun m => m.country == "Cabo Verde").length = 2 := by
  decide

/-- C7 as amended.  Each case row yields one merged row per population row
sharing its canonical country name: the merge's size is the sum, over the
standardized case rows, of the number of matching standardized population
rows.  Duplicate canonical names on the population side fan out; no
deduplication is performed. -/
theorem merger_row_per_matching_pop_row
    (population_df : List PopRow) (covid_df : List CaseRow) :
    (merging_datasets population_df covid_df).length =
      ((data_standarization population_df covid_df).2.map fun c =>
        ((data_standarization population_df covid_df).1.filter
          fun p => p.country == c.country).length).sum := by
  simp [merging_datasets, List.flatMap_def, List.map_map, Function.comp_def,
    List.length_map]

/-! ### Helper lemmas about the latest-date scan and the final sort -/


/-- A row produced by the `idxmax` scan comes from the scanned list (or
was already the accumulator). -/
lemma foldl_dateStep_mem :
    ∀ (l : List RateRow) (acc : Option RateRow) (r : RateRow),
      l.foldl dateStep acc = some r → acc = some r ∨ r ∈ l := by
  intro l
  induction l with
  | nil => intro acc r h; exact Or.inl h
  | cons a l ih =>
      intro acc r h
      rcases ih (dateStep acc a) r h with h' | h'
      · cases acc with
        | none =>
            simp only [dateStep, Option.some.injEq] at h'
            exact Or.inr (h' ▸ List.mem_cons_self a l)
        | some b =>
            simp only [dateStep] at h'
            split at h'
            · cases h'; exact Or.inr (List.mem_cons_self a l)
            · exact Or.inl h'
      · exact Or.inr (List.mem_cons_of_mem a h')

/-- The `idxmax` scan step never lowers the date of the running best. -/
lemma dateStep_dominates (acc : Option RateRow) (a : RateRow) :
    ∃ c, dateStep acc a = some c ∧ a.date ≤ c.date ∧
      ∀ b, acc = some b → b.date ≤ c.date := by
  cases acc with
  | none => exact ⟨a, rfl, le_refl _, by intro b hb; cases hb⟩
  | some b =>
      by_cases hd : b.date < a.date
      · exact ⟨a, by simp [dateStep, hd], le_refl _,
          by intro b' hb'; cases hb'; exact le_of_lt hd⟩
      · exact ⟨b, by simp [dateStep, hd], Nat.le_of_not_lt hd,
          by intro b' hb'; cases hb'; exact le_refl _⟩

/-- The row returned by the `idxmax` scan has the maximum date of the
scanned list (and of the accumulator). -/
lemma foldl_dateStep_le :
    ∀ (l : List RateRow) (acc : Option RateRow) (r : RateRow),
      l.foldl dateStep acc = some r →
        (∀ x ∈ l, x.date ≤ r.date) ∧ (∀ b, acc = some b → b.date ≤ r.date) := by
  intro l
  induction l with
  | nil =>
      intro acc r h
      have h' : acc = some r := h
      exact ⟨by simp, fun b hb => by rw [h'] at hb; cases hb; exact le_refl _⟩
  | cons a l ih =>
      intro acc r h
      obtain ⟨h1, h2⟩ := ih (dateStep acc a) r h
      obtain ⟨c, hc, hac, hbc⟩ := dateStep_dominates acc a
      refine ⟨?_, ?_⟩
      · intro x hx
        rcases List.mem_cons.1 hx with rfl | hx
        · exact le_trans hac (h2 c hc)
        · exact h1 x hx
      · intro b hb
        exact le_trans (hbc b hb) (h2 c hc)

/-- The `idxmax` scan of a nonempty list returns a row. -/
lemma foldl_dateStep_isSome :
    ∀ (l : List RateRow) (acc : Option RateRow),
      acc.isSome = true ∨ l ≠ [] → (l.foldl dateStep acc).isSome = true := by
  intro l
  induction l with
  | nil =>
      intro acc h
      exact h.resolve_right (by simp)
  | cons a l ih =>
      intro acc _
      refine ih (dateStep acc a) (Or.inl ?_)
      cases acc with
      | none => rfl
      | some b => simp only [dateStep]; split <;> rfl

lemma idxmaxDate_mem {l : List RateRow} {r : RateRow} (h : idxmaxDate l = some r) :
    r ∈ l :=
  (foldl_dateStep_mem l none r h).resolve_left (by simp)

lemma idxmaxDate_le {l : List RateRow} {r : RateRow} (h : idxmaxDate l = some r) :
    ∀ x ∈ l, x.date ≤ r.date :=
  (foldl_dateStep_le l none r h).1

lemma idxmaxDate_isSome {l : List RateRow} (h : l ≠ []) :
    (idxmaxDate l).isSome = true :=
  foldl_dateStep_isSome l none (Or.inr h)

/-- Every row of the reduced table is a row of the rated table. -/
lemma mem_of_mem_reduce_latest {l : List RateRow} {r : RateRow}
    (h : r ∈ reduce_latest l) : r ∈ l := by
  obtain ⟨c, _, hg⟩ := List.mem_filterMap.1 h
  exact (List.mem_filter.1 (idxmaxDate_mem hg)).1

/-- The row selected for group `c` carries country `c`. -/
lemma idxmaxDate_filter_country {l : List RateRow} {c : String} {r : RateRow}
    (h : idxmaxDate (l.filter fun x => x.country == c) = some r) :
    r.country = c := by
  have := (List.mem_filter.1 (idxmaxDate_mem h)).2
  exact eq_of_beq this

/-- The final sort is a permutation of the reduced table. -/
lemma sort_desc_perm (l : List RateRow) : List.Perm (sort_desc l) l :=
  (List.reverse_perm _).trans (List.perm_insertionSort _ l)

/-- On a successful run the output is the sorted reduction of the rated,
date-converted table. -/
lemma calculate_ok_elim {merged_df : List MergedRow} {dated : List DatedRow}
    {out : List RateRow} (hd : convert_dates merged_df = .ok dated)
    (hout : calculate_per_capita merged_df = .ok out) :
    out = sort_desc (reduce_latest (dated.map add_rate)) := by
  rw [calculate_per_capita, hd] at hout
  simpa [Except.map] using hout.symm

/-! ### C9: unparseable dates fail the whole run -/

/-- A single bad `Date` value makes the whole column conversion raise. -/
lemma convert_dates_error {l : List MergedRow}
    (h : ∃ r ∈ l, parseDate r.date = none) :
    ∃ e, convert_dates l = .error e := by
  induction l with
  | nil => simp at h
  | cons a l ih =>
      obtain ⟨r, hr, hp⟩ := h
      rcases List.mem_cons.1 hr with rfl | hr
      · exact ⟨"time data " ++ r.date ++ " does not match format %Y-%m-%d",
          by simp [convert_dates, hp]⟩
      · cases hpa : parseDate a.date with
        | none =>
            exact ⟨"time data " ++ a.date ++ " does not match format %Y-%m-%d",
              by simp [convert_dates, hpa]⟩
        | some d =>
            obtain ⟨e, he⟩ := ih ⟨r, hr, hp⟩
            exact ⟨e, by simp [convert_dates, hpa, he, Except.map]⟩

/-- C9.  If any merged row's `Date` does not parse as a `%Y-%m-%d` date,
`calculate_per_capita` fails the whole run with an error and produces no
result table: there is no partial-success mode in which the remaining
rows are processed. -/
theorem calculate_fails_on_unparseable_date (merged_df : List MergedRow)
    (h : ∃ r ∈ merged_df, parseDate r.date = none) :
    ∃ e, calculate_per_capita merged_df = .error e := by
  obtain ⟨e, he⟩ := convert_dates_error h
  exact ⟨e, by simp [calculate_per_capita, he, Except.map]⟩

/-- Witness for C9: a run over a table holding one unparseable date
errors out. -/
theorem calculate_fails_on_unparseable_date_witness :
    ∃ e, calculate_per_capita [⟨"A", "not-a-date", 1, 1⟩] = .error e :=
  calculate_fails_on_unparseable_date [⟨"A", "not-a-date", 1, 1⟩] (by decide)

/-! ### C10: the caller's DataFrame is never mutated -/




/-- C10.  `calculate_per_capita` never mutates the merged DataFrame
passed to it: whether the run succeeds or raises, the caller's object
still holds the original rows, and the value returned agrees with the
pure pipeline. -/
theorem calculate_per_capita_no_mutation (merged_df : List MergedRow) :
    (calculate_per_capita_run merged_df).1.merged_obj = PdVal.raw merged_df ∧
    (calculate_per_capita_run merged_df).2 = calculate_per_capita merged_df := by
  rw [calculate_per_capita_run, calculate_per_capita]
  cases h : convert_dates merged_df <;> simp [Except.map]

/-! ### C2: the per-row rate formula -/

/-- The fraction built on line 78 is exactly
`Confirmed / 2022 Population * 100000`. -/
lemma divInt_rate_eq (c p : ℤ) :
    Rat.divInt (c * 100000) p = (c : ℚ) / (p : ℚ) * 100000 := by
  rw [Rat.divInt_eq_div]
  push_cast
  ring

/-- Lemma: `roundHalfEven` read off the floor: keep `⌊q⌋` when the fractional
part is below one half, go up when above, and round to the even integer
on an exact tie — numpy's rounding mode. -/
lemma roundHalfEven_spec (q : ℚ) :
    roundHalfEven q =
      if q - ⌊q⌋ < 1 / 2 then ⌊q⌋
      else if 1 / 2 < q - ⌊q⌋ then ⌊q⌋ + 1
      else if ⌊q⌋ % 2 = 0 then ⌊q⌋ else ⌊q⌋ + 1 := by
  have hd0 : (0 : ℤ) < (q.den : ℤ) := Int.ofNat_pos.mpr q.den_pos
  have hdq : (0 : ℚ) < ((q.den : ℤ) : ℚ) := by exact_mod_cast hd0
  have hf : q.num.fdiv q.den = ⌊q⌋ := by
    rw [Rat.floor_def]
    exact Int.fdiv_eq_ediv _ (le_of_lt hd0)
  have hfrac : q - ⌊q⌋ = ((q.num - ⌊q⌋ * q.den : ℤ) : ℚ) / ((q.den : ℤ) : ℚ) := by
    rw [eq_div_iff hdq.ne']
    push_cast
    rw [sub_mul]
    congr 1
    exact_mod_cast Rat.mul_den_eq_num q
  have hlt : (q - ⌊q⌋ < 1 / 2) ↔ 2 * (q.num - ⌊q⌋ * q.den) < (q.den : ℤ) := by
    rw [hfrac, div_lt_div_iff₀ hdq (by norm_num : (0:ℚ) < 2), one_mul, mul_comm]
    exact_mod_cast Iff.rfl
  have hgt : (1 / 2 < q - ⌊q⌋) ↔ (q.den : ℤ) < 2 * (q.num - ⌊q⌋ * q.den) := by
    rw [hfrac, div_lt_div_iff₀ (by norm_num : (0:ℚ) < 2) hdq, one_mul, mul_comm]
    exact_mod_cast Iff.rfl
  unfold roundHalfEven
  simp only [hf, hlt, hgt]

/-- C2.  For every row with a positive population, `Cases_per_100k` is
`Confirmed / 2022 Population * 100000` rounded to exactly 2 decimal
places, and it is computed per row on the full date-converted table,
before the latest-date reduction.  In this rational-arithmetic model the
pre-rounding value is exactly `confirmed / population * 100000` (hence
within any floating-point tolerance, in particular 1e-9); `round2` is
numpy's round-half-to-even at 2 decimals. -/
theorem rate_per_row_formula (merged_df : List MergedRow)
    (dated : List DatedRow) (out : List RateRow)
    (hd : convert_dates merged_df = .ok dated)
    (hout : calculate_per_capita merged_df = .ok out) :
    (∀ r ∈ dated.map add_rate, 0 < r.population →
      r.cases_per_100k = round2 ((r.confirmed : ℚ) / (r.population : ℚ) * 100000)) ∧
    (∀ r ∈ out, 0 < r.population →
      r.cases_per_100k = round2 ((r.confirmed : ℚ) / (r.population : ℚ) * 100000)) := by
  have hmap : ∀ r ∈ dated.map add_rate,
      r.cases_per_100k = round2 ((r.confirmed : ℚ) / (r.population : ℚ) * 100000) := by
    intro r hr
    obtain ⟨x, _, rfl⟩ := List.mem_map.1 hr
    show round2 (Rat.divInt (x.confirmed * 100000) x.population) = _
    rw [divInt_rate_eq]
    rfl
  have hsub : ∀ r ∈ out, r ∈ dated.map add_rate := by
    intro r hr
    rw [calculate_ok_elim hd hout] at hr
    exact mem_of_mem_reduce_latest ((sort_desc_perm _).mem_iff.1 hr)
  exact ⟨fun r hr _ => hmap r hr, fun r hr _ => hmap r (hsub r hr)⟩

/-! ### Concrete run used by the witnesses -/




/-- Witness for C2: on the concrete run, the output row of country `"A"`
carries rate `round2 (4 / 200000 * 100000)`. -/
theorem rate_per_row_formula_witness :
    (⟨"A", 20210102, 4, 200000, 2⟩ : RateRow).cases_per_100k =
      round2 (((4 : Int) : ℚ) / ((200000 : Int) : ℚ) * 100000) :=
  (rate_per_row_formula wMerged wDated wOut (by decide) (by decide)).2
    ⟨"A", 20210102, 4, 200000, 2⟩ (by decide) (by decide)

/-! ### C3: the output is sorted by rate, descending -/



/-- C3.  When every population in the merged input is positive (so every
rate is an ordinary number), the output of `calculate_per_capita` is
sorted by `Cases_per_100k` descending: each row's rate is at least the
next row's. -/
theorem output_sorted_descending (merged_df : List MergedRow) (out : List RateRow)
    (hpos : ∀ r ∈ merged_df, 0 < r.population)
    (hout : calculate_per_capita merged_df = .ok out) :
    ∀ i : ℕ, ∀ hi : i + 1 < out.length,
      (out.get ⟨i + 1, hi⟩).cases_per_100k ≤
        (out.get ⟨i, Nat.lt_of_succ_lt hi⟩).cases_per_100k := by
  cases hcd : convert_dates merged_df with
  | error e =>
      rw [calculate_per_capita, hcd] at hout
      simp [Except.map] at hout
  | ok dated =>
      have hEq := calculate_ok_elim hcd hout
      have hs :
          ((reduce_latest (dated.map add_rate)).insertionSort
              fun a b => a.cases_per_100k ≤ b.cases_per_100k).Sorted
            (fun a b => a.cases_per_100k ≤ b.cases_per_100k) :=
        List.sorted_insertionSort _ _
      have hp : out.Pairwise fun a b => b.cases_per_100k ≤ a.cases_per_100k := by
        rw [hEq]
        exact List.pairwise_reverse.2 hs
      intro i hi
      exact List.pairwise_iff_get.1 hp ⟨i, Nat.lt_of_succ_lt hi⟩ ⟨i + 1, hi⟩
        (Nat.lt_succ_self i)

/-- Witness for C3: on the concrete run the two adjacent output rates are
in descending order. -/
theorem output_sorted_descending_witness :
    (wOut.get ⟨1, by decide⟩).cases_per_100k ≤
      (wOut.get ⟨0, by decide⟩).cases_per_100k :=
  output_sorted_descending wMerged wOut (by decide) (by decide) 0 (by decide)

/-! ### C4: the final sort is not stable -/




/-- Counterexample to C4: the final sort does not retain the relative
order of countries with identical `Cases_per_100k`.  Before the sort the
reduced table lists `"A"` then `"B"` (equal rates); `sort_values`
reverses an ascending argsort, so the final output lists `"B"` then
`"A"`. -/
theorem final_sort_reverses_tied_pair :
    cexRowA.cases_per_100k = cexRowB.cases_per_100k ∧
    (convert_dates cex4).map (fun dated => reduce_latest (dated.map add_rate)) =
      .ok [cexRowA, cexRowB] ∧
    calculate_per_capita cex4 = .ok [cexRowB, cexRowA] := by
  decide

/-- C4 as amended.  The final sort of `calculate_per_capita` is not
stable: it is not the case that, on every input, every pair of rows with
identical `Cases_per_100k` standing in order `a` before `b` in the reduced
(pre-sort) table keeps that relative order in the final output.  The
stability property is refuted by the concrete two-country run `cex4`,
whose tied pair comes out reversed. -/
theorem final_sort_not_stable :
    ¬ ∀ (merged_df : List MergedRow) (dated : List DatedRow) (out : List RateRow)
        (a b : RateRow),
        convert_dates merged_df = .ok dated →
        calculate_per_capita merged_df = .ok out →
        a.cases_per_100k = b.cases_per_100k →
        [a, b].Sublist (reduce_latest (dated.map add_rate)) →
        [a, b].Sublist out := by
  intro h
  have hAB := h cex4 cexDated [cexRowB, cexRowA] cexRowA cexRowB
    (by decide) (by decide) (by decide) (by decide)
  exact absurd hAB (by decide)

/-! ### C1: one row per country, at that country's maximum date -/

lemma mem_groupKeys {l : List RateRow} {c : String} :
    c ∈ groupKeys l ↔ c ∈ l.map (fun r => r.country) := by
  unfold groupKeys
  rw [(List.perm_insertionSort _ _).mem_iff, List.mem_dedup]

lemma nodup_groupKeys (l : List RateRow) : (groupKeys l).Nodup :=
  ((List.perm_insertionSort _ _).nodup_iff).mpr (List.nodup_dedup _)

lemma filter_country_ne_nil {l : List RateRow} {c : String}
    (h : c ∈ l.map (fun r => r.country)) :
    l.filter (fun r => r.country == c) ≠ [] := by
  obtain ⟨x, hx, rfl⟩ := List.mem_map.1 h
  intro hnil
  have hmem : x ∈ l.filter (fun r => r.country == x.country) :=
    List.mem_filter.2 ⟨hx, by simp⟩
  rw [hnil] at hmem
  exact absurd hmem (List.not_mem_nil x)

/-- Counting rows by country in a `filterMap` over distinct group keys,
when each key produces at most one row and that row carries the key. -/
lemma filterMap_count_nodup (g : String → Option RateRow)
    (hg : ∀ c r, g c = some r → r.country = c) :
    ∀ keys : List String, keys.Nodup → ∀ c : String,
      ((keys.filterMap g).filter fun r => r.country == c).length =
        if c ∈ keys ∧ (g c).isSome then 1 else 0 := by
  intro keys
  induction keys with
  | nil => intro _ c; simp
  | cons k ks ih =>
      intro hnd c
      obtain ⟨hk, hks⟩ := List.nodup_cons.1 hnd
      rw [List.filterMap_cons]
      cases hgk : g k with
      | none =>
          rw [ih hks c]
          by_cases hck : c = k
          · subst hck
            simp [hgk, hk]
          · simp [hck]
      | some r =>
          have hrc : r.country = k := hg k r hgk
          rw [List.filter_cons]
          by_cases hck : c = k
          · subst hck
            have h1 : (r.country == c) = true := beq_iff_eq.2 hrc
            have hnotin : ¬ (c ∈ ks ∧ (g c).isSome = true) := fun hmem => hk hmem.1
            rw [if_pos h1, List.length_cons, ih hks c, if_neg hnotin,
              if_pos ⟨List.mem_cons_self c ks, by rw [hgk]; rfl⟩]
          · have h1 : ¬ ((r.country == c) = true) := by
              rw [beq_iff_eq, hrc]
              exact fun h => hck h.symm
            rw [if_neg h1, ih hks c]
            have hmem : (c ∈ k :: ks) ↔ c ∈ ks := by
              simp [List.mem_cons, hck]
            rw [if_congr (and_congr_left fun _ => hmem) rfl rfl]

/-- The reduced table holds exactly one row for each country present in
the rated table, and none for any other country. -/
lemma reduce_count (l : List RateRow) (c : String) :
    ((reduce_latest l).filter fun r => r.country == c).length =
      if c ∈ l.map (fun r => r.country) then 1 else 0 := by
  unfold reduce_latest
  rw [filterMap_count_nodup _ (fun c r h => idxmaxDate_filter_country h)
      (groupKeys l) (nodup_groupKeys l) c]
  by_cases h : c ∈ l.map (fun r => r.country)
  · have hmem : c ∈ groupKeys l := mem_groupKeys.2 h
    have hsome : (idxmaxDate (l.filter fun r => r.country == c)).isSome = true :=
      idxmaxDate_isSome (filter_country_ne_nil h)
    simp [h, hmem, hsome]
  · have hnot : c ∉ groupKeys l := fun hc => h (mem_groupKeys.1 hc)
    simp [h, hnot]

/-- Date conversion preserves the `Country` column. -/
lemma convert_dates_countries :
    ∀ {m : List MergedRow} {dated : List DatedRow},
      convert_dates m = .ok dated →
        dated.map (fun r => r.country) = m.map (fun r => r.country) := by
  intro m
  induction m with
  | nil =>
      intro dated h
      simp only [convert_dates] at h
      cases h
      simp
  | cons a l ih =>
      intro dated h
      rw [convert_dates] at h
      cases hpa : parseDate a.date with
      | none => rw [hpa] at h; cases h
      | some d =>
          rw [hpa] at h
          cases hrec : convert_dates l with
          | error e => rw [hrec] at h; cases h
          | ok tl =>
              rw [hrec] at h
              simp only [Except.map, Except.ok.injEq] at h
              rw [← h]
              simp [ih hrec]

/-- Adding the rate column preserves the `Country` column. -/
lemma map_add_rate_countries (dated : List DatedRow) :
    (dated.map add_rate).map (fun r => r.country) = dated.map (fun r => r.country) := by
  rw [List.map_map]
  rfl

/-- C1.  On every merged input whose dates all parse, the table returned
by `calculate_per_capita` has exactly one row per distinct country of the
merged input (and no others), and each output row's date is the maximum
date observed for that country in the (date-converted) merged input. -/
theorem one_row_per_country_at_max_date (merged_df : List MergedRow)
    (dated : List DatedRow) (out : List RateRow)
    (hd : convert_dates merged_df = .ok dated)
    (hout : calculate_per_capita merged_df = .ok out) :
    (∀ c : String,
      (out.filter fun r => r.country == c).length =
        if c ∈ merged_df.map (fun r => r.country) then 1 else 0) ∧
    (∀ r ∈ out,
      (∃ x ∈ dated, x.country = r.country ∧ x.date = r.date) ∧
      (∀ x ∈ dated, x.country = r.country → x.date ≤ r.date)) := by
  have hEq := calculate_ok_elim hd hout
  have hcountries : (dated.map add_rate).map (fun r => r.country) =
      merged_df.map (fun r => r.country) := by
    rw [map_add_rate_countries, convert_dates_countries hd]
  constructor
  · intro c
    have hperm : List.Perm out (reduce_latest (dated.map add_rate)) := by
      rw [hEq]; exact sort_desc_perm _
    rw [← List.countP_eq_length_filter, hperm.countP_eq,
      List.countP_eq_length_filter, reduce_count _ c, hcountries]
  · intro r hr
    have hr' : r ∈ reduce_latest (dated.map add_rate) := by
      rw [hEq] at hr
      exact (sort_desc_perm _).mem_iff.1 hr
    obtain ⟨c, _, hg⟩ := List.mem_filterMap.1 hr'
    have hrc : r.country = c := idxmaxDate_filter_country hg
    have hrmem : r ∈ dated.map add_rate := (List.mem_filter.1 (idxmaxDate_mem hg)).1
    have hle : ∀ x ∈ dated.map add_rate, x.country = r.country → x.date ≤ r.date := by
      intro x hx hxc
      refine idxmaxDate_le hg x (List.mem_filter.2 ⟨hx, ?_⟩)
      exact beq_iff_eq.2 (hxc.trans hrc)
    constructor
    · obtain ⟨x, hx, hxr⟩ := List.mem_map.1 hrmem
      exact ⟨x, hx, by rw [← hxr]; exact ⟨rfl, rfl⟩⟩
    · intro x hx hxc
      exact hle (add_rate x) (List.mem_map_of_mem add_rate hx) hxc

/-- Witness for C1: on the concrete run, country `"A"` (present in the
input) has exactly one output row, country `"C"` (absent) has none. -/
theorem one_row_per_country_at_max_date_witness :
    (wOut.filter fun r => r.country == "A").length = 1 ∧
    (wOut.filter fun r => r.country == "C").length = 0 := by
  have h := one_row_per_country_at_max_date wMerged wDated wOut (by decide) (by decide)
  constructor
  · rw [h.1 "A"]; decide
  · rw [h.1 "C"]; decide

end Covid
